import Mathlib

/-!
Verification of the version-control object engine of this repository
(class `Git` in the source, plus the ref-publishing step of `Repository`).

Modelling conventions (shallow embedding):

* JS byte arrays are `List Nat` (every element is a byte value `< 256`
  wherever the source produces one).
* JS strings are Lean `String`; the JS string methods used by the source
  (`trim`, `startsWith`, `substr`, `split`, `localeCompare`) are embedded as
  executable functions over `String.data` (`jsTrim`, `jsStartsWith`, ...) so
  all definitions reduce in the kernel.  `String.prototype.localeCompare` is a
  host-collation function whose result the ECMAScript standard leaves to the
  locale; it is therefore a *parameter* (`lc`) of the tree-writing functions.
* The asynchronous storage backend (`zeroPage`) is a function
  `Store := String → Option (List Nat)`: `none` models a rejected read
  (`readFile` throwing), `some bytes` a successful read.  The source prefixes
  every path with `${this.root}/`, an injective renaming of paths that is
  dropped here; `Git.writeFile`/`Git.readFile` convert between byte arrays and
  backend strings with `fromCharCode`/`charCodeAt`, which are mutually inverse
  on byte values, so the backend is modelled directly as a byte store.
* Entry names are Lean `String`s; `encodeUTF8`/`decodeUTF8` of the source are
  modelled by the code-unit maps `stringToArray`/`arrayToString`, which agree
  with UTF-8 exactly on ASCII data; theorems about tree payload bytes carry an
  ASCII hypothesis on names making this boundary explicit.
* Unbounded recursion in the source (`getRef`, `getBranchCommit`, the
  `parseTree` scan loop) is embedded with an explicit fuel argument;
  a `none` result means the recursion has not finished within the given fuel,
  so `∀ fuel, f fuel x = none` states that the source diverges on `x`.
-/

namespace GitModel

/-- The storage backend under the repository root: path ↦ byte content.
`none` models `zeroPage.readFile` rejecting (file absent). -/
def Store : Type := String → Option (List Nat)

/-- The lowercase hexadecimal digits, i.e. the character class `[a-f0-9]`
of `Git.isSha`: the ten decimal digits (codes 48–57) and the six letters
`a`–`f` (codes 97–102). -/
def hexChars : List Char :=
  (List.range 10).map (fun n => Char.ofNat (48 + n)) ++
    (List.range 6).map (fun n => Char.ofNat (97 + n))

/-- `Git.stringToArray`: `string.split('').map(c => c.charCodeAt(0))`. -/
def stringToArray (s : String) : List Nat := s.data.map Char.toNat

/-- `Git.arrayToString`: `Array.from(array).map(b => String.fromCharCode(b)).join('')`. -/
def arrayToString (l : List Nat) : String := ⟨l.map Char.ofNat⟩

/-- `Git.isSha`: `/^[a-f0-9]{40}$/.test(str)`. -/
def isSha (s : String) : Bool :=
  s.data.length == 40 && s.data.all (fun c => decide (c ∈ hexChars))

/-- The whitespace class of JS `String.prototype.trim` (the common members). -/
def jsWhitespace : List Char :=
  [' ', '\t', '\n', '\r', '\x0b', '\x0c', ' ', '﻿']

/-- Whether a character is JS whitespace. -/
def jsIsWs (c : Char) : Bool := jsWhitespace.contains c

/-- JS `String.prototype.trim`: strip whitespace from both ends. -/
def jsTrim (s : String) : String :=
  ⟨((s.data.dropWhile jsIsWs).reverse.dropWhile jsIsWs).reverse⟩

/-- JS `String.prototype.startsWith`. -/
def jsStartsWith (s p : String) : Bool := List.isPrefixOf p.data s.data

/-- JS `String.prototype.substr(n)` (drop the first `n` characters). -/
def jsDrop (s : String) (n : Nat) : String := ⟨s.data.drop n⟩

/-- JS `String.prototype.substr(0, n)` (take the first `n` characters). -/
def jsTake (s : String) (n : Nat) : String := ⟨s.data.take n⟩

/-- The value `parseInt` assigns to one hexadecimal digit (as used by
`Git.packSha` on two-character substrings); characters outside
`[0-9a-fA-F]` are modelled as `0` — the source only applies this to ids
accepted by `isSha`. -/
def hexVal (c : Char) : Nat :=
  if '0' ≤ c ∧ c ≤ '9' then c.toNat - 48
  else if 'a' ≤ c ∧ c ≤ 'f' then c.toNat - 87
  else if 'A' ≤ c ∧ c ≤ 'F' then c.toNat - 55
  else 0

/-- `Git.packSha` on the character list: `parseInt(shaString.substr(i, 2), 16)`
for `i = 0, 2, 4, ...` (a trailing odd character is parsed alone, as
`substr(i, 2)` then returns a single character). -/
def packShaChars : List Char → List Nat
  | c1 :: c2 :: rest => (hexVal c1 * 16 + hexVal c2) :: packShaChars rest
  | [c] => [hexVal c]
  | [] => []

/-- `Git.packSha`: hex string to byte list. -/
def packSha (s : String) : List Nat := packShaChars s.data

/-- The lowercase hex digit for `n < 16`, as produced by
`byte.toString(16)`. -/
def hexDigit (n : Nat) : Char :=
  if n < 10 then Char.ofNat (48 + n) else Char.ofNat (87 + n)

/-- `Git.unpackSha` on the byte list:
`byte.toString(16).padStart(2, '0')` for each byte (faithful for byte
values `< 256`, the only values the source feeds it). -/
def unpackShaChars (l : List Nat) : List Char :=
  l.flatMap (fun b => [hexDigit (b / 16), hexDigit (b % 16)])

/-- `Git.unpackSha`: byte list to lowercase hex string. -/
def unpackSha (l : List Nat) : String := ⟨unpackShaChars l⟩

/-- Functional update of the backend, i.e. the effect of
`Git.writeFile(path, content)` on later reads. -/
def writeFileS (store : Store) (path : String) (content : List Nat) : Store :=
  fun p => if p = path then some content else store p

/-- The empty backend: every read fails. -/
def emptyStore : Store := fun _ => none

/-- `Git.sha`: the source is a placeholder that ignores its input —
`// Implementation would use crypto-js or similar; for now, return a
placeholder` — and returns the literal string `'placeholder_sha'`. -/
def sha (_data : List Nat) : String := "placeholder_sha"

/-- `Git.deflate`: the source is a placeholder returning its input unchanged. -/
def deflate (data : List Nat) : List Nat := data

/-- `Git.inflate`: the source is a placeholder returning its input unchanged. -/
def inflate (data : List Nat) : List Nat := data

/-- The loose-object path `objects/<id[0:2]>/<id[2:]>` used by
`readUnpackedObject` and `writeObject`. -/
def objPath (id : String) : String :=
  "objects/" ++ jsTake id 2 ++ "/" ++ jsDrop id 2

/-- `Git.writeObject(type, content)`: build `"<type> <len>\0<payload>"`,
hash it with `sha` to obtain the id, and store the deflated bytes at the
loose-object path.  Returns the id and the updated backend. -/
def writeObject (store : Store) (type : String) (content : List Nat) :
    String × Store :=
  let header := stringToArray (type ++ " " ++ toString content.length)
  let data := header ++ [0] ++ content
  let id := sha data
  (id, writeFileS store (objPath id) (deflate data))

/-- `Git.setRef(ref, commit)`: `writeFile(ref, stringToArray(commit))`. -/
def setRef (store : Store) (ref commit : String) : Store :=
  writeFileS store ref (stringToArray commit)

/-- `Git.getRef(ref)` with explicit fuel: read the ref file; on a failed read
throw `Unknown ref: <ref>`; if the trimmed content starts with `ref:` recurse
on the target (the source recursion is unbounded — `none` here means the
recursion is still running after `fuel` hops). -/
def getRefF (store : Store) : Nat → String → Option (Except String String)
  | 0, _ => none
  | fuel + 1, ref =>
    match store ref with
    | none => some (Except.error ("Unknown ref: " ++ ref))
    | some content =>
      let refContent := jsTrim (arrayToString content)
      if jsStartsWith refContent "ref:" then
        getRefF store fuel (jsTrim (jsDrop refContent 4))
      else
        some (Except.ok refContent)

/-- The regex replace `head.replace(/^ref:\s*refs\/heads\//, '')` of
`Git.getHead`: the whitespace run after `ref:` is maximal-munch (no
backtracking can occur, since `refs/heads/` starts with a non-whitespace
character), and the string is returned unchanged when the pattern does not
match at the start. -/
def stripHeadPrefix (s : String) : String :=
  if jsStartsWith s "ref:" then
    let rest : String := ⟨(s.data.drop 4).dropWhile jsIsWs⟩
    if jsStartsWith rest "refs/heads/" then jsDrop rest 11 else s
  else s

/-- `Git.getHead()`: read `HEAD`, strip the `ref: refs/heads/` marker, trim;
a failed read throws `No HEAD ref found`. -/
def getHead (store : Store) : Except String String :=
  match store "HEAD" with
  | none => Except.error "No HEAD ref found"
  | some head => Except.ok (jsTrim (stripHeadPrefix (arrayToString head)))

/-- `Git.getBranchCommit(branch)` with explicit fuel: a full 40-hex id is
returned as-is; the empty string resolves through `getHead`; otherwise
`refs/heads/<branch>` is tried and, if `getRef` throws, `refs/tags/<branch>`;
when both throw, the error is `Could not find branch: <branch>`.  The source
consults no packed-ref table here. -/
def getBranchCommitF (store : Store) : Nat → String → Option (Except String String)
  | 0, _ => none
  | fuel + 1, branch =>
    if isSha branch then some (Except.ok branch)
    else if branch = "" then
      match getHead store with
      | Except.error e => some (Except.error e)
      | Except.ok head => getBranchCommitF store fuel head
    else
      match getRefF store (fuel + 1) ("refs/heads/" ++ branch) with
      | none => none
      | some (Except.ok v) => some (Except.ok v)
      | some (Except.error _) =>
        match getRefF store (fuel + 1) ("refs/tags/" ++ branch) with
        | none => none
        | some (Except.ok v) => some (Except.ok v)
        | some (Except.error _) =>
          some (Except.error ("Could not find branch: " ++ branch))

/-- JS `String.prototype.split(sep)` for a single-character separator
(worker on the character list, with the current piece accumulated in
reverse). -/
def jsSplitChars (sep : Char) : List Char → List Char → List String
  | [], acc => [⟨acc.reverse⟩]
  | c :: rest, acc =>
    if c = sep then ⟨acc.reverse⟩ :: jsSplitChars sep rest []
    else jsSplitChars sep rest (c :: acc)

/-- JS `String.prototype.split(sep)` for a single-character separator. -/
def jsSplit (s : String) (sep : Char) : List String := jsSplitChars sep s.data []

/-- The backend directory listing `zeroPage.listDirectory`; `none` models a
rejected promise. -/
def DirStore : Type := String → Option (List String)

/-- One iteration of the packed-refs loop of `Git.getRefList`: a line
contributes its second space-separated token when the trimmed line is
nonempty, the line is not a `#` comment, the token exists and is nonempty
(JS truthiness of `ref`), and the token is not already listed
(`!refs.includes(ref)`). -/
def packedStep (acc : List String) (line : String) : List String :=
  if jsTrim line ≠ "" ∧ jsStartsWith line "#" = false then
    match (jsSplit line ' ')[1]? with
    | some r => if r ≠ "" ∧ r ∉ acc then acc ++ [r] else acc
    | none => acc
  else acc

/-- The loose entries of `Git.getRefList`: directory listing of `refs`,
each prefixed with `refs/`; an absent directory contributes nothing. -/
def looseRefs (dirs : DirStore) : List String :=
  match dirs "refs" with
  | some refsDir => refsDir.map (fun r => "refs/" ++ r)
  | none => []

/-- The lines of the packed-refs file; an absent file contributes nothing. -/
def packedLines (files : Store) : List String :=
  match files "packed-refs" with
  | none => []
  | some packedRefs => jsSplit (arrayToString packedRefs) '\n'

/-- `Git.getRefList()`: loose entries first, then the packed-refs loop over
the file's lines; each absent source degrades to an empty contribution. -/
def getRefList (dirs : DirStore) (files : Store) : List String :=
  let loose := looseRefs dirs
  match files "packed-refs" with
  | none => loose
  | some packedRefs =>
    (jsSplit (arrayToString packedRefs) '\n').foldl packedStep loose

/-- The ref name a packed-refs line contributes, if any: its second
space-separated token, on a non-blank non-comment line, when nonempty. -/
def packedLineName (line : String) : Option String :=
  if jsTrim line ≠ "" ∧ jsStartsWith line "#" = false then
    match (jsSplit line ' ')[1]? with
    | some r => if r ≠ "" then some r else none
    | none => none
  else none

/-- The ref names the packed-ref table lists. -/
def packedNames (lines : List String) : List String :=
  lines.filterMap packedLineName

/-! ### The tree codec -/

/-- A tree entry as the source handles it: `{type, name, id}`, with `type`
one of the strings `blob` / `tree` / `submodule`, `name` a string and `id` a
40-hex string. -/
structure TreeItem where
  type : String
  name : String
  id : String
deriving DecidableEq, Repr

/-- The slash-adjusted sort key of `writeTree`'s comparator:
`a.type === 'tree' ? a.name + '/' : a.name`. -/
def slashedName (e : TreeItem) : String :=
  if e.type = "tree" then e.name ++ "/" else e.name

/-- The relation `items.sort(...)` sorts into in `writeTree`, for host
collator `lc` standing for `String.prototype.localeCompare`:
`comparator(a, b) <= 0`. -/
def sortRel (lc : String → String → Int) (a b : TreeItem) : Prop :=
  lc (slashedName a) (slashedName b) ≤ 0

instance sortRelDec (lc : String → String → Int) : DecidableRel (sortRel lc) :=
  fun _ _ => inferInstanceAs (Decidable (_ ≤ _))

/-- `items.sort(comparator)` of `writeTree`: ECMAScript specifies a stable
sort whose output is consistent with the comparator, and for a consistent
comparator stability determines the output uniquely, so the sort is modelled
by stable insertion sort with respect to `comparator(a, b) <= 0`. -/
def sortJs (lc : String → String → Int) (items : List TreeItem) : List TreeItem :=
  List.insertionSort (sortRel lc) items

/-- One entry record of the tree payload:
`encodeUTF8(mode + ' ' + name) ++ [0] ++ packSha(id)`, with
`mode = item.type === 'tree' ? '040000' : '100644'` (note: a `submodule`
entry also gets `100644`). -/
def entryRecord (e : TreeItem) : List Nat :=
  stringToArray ((if e.type = "tree" then "040000" else "100644") ++ " " ++ e.name) ++
    [0] ++ packSha e.id

/-- The tree payload `Git.writeTree` hands to `writeObject('tree', ...)`:
the records of the sorted entries, concatenated. -/
def writeTreePayload (lc : String → String → Int) (items : List TreeItem) :
    List Nat :=
  ((sortJs lc items).map entryRecord).flatten

/-- `Git.writeTree(items)` itself: sort, build the payload, then
`writeObject('tree', content)`. -/
def writeTree (store : Store) (lc : String → String → Int)
    (items : List TreeItem) : String × Store :=
  writeObject store "tree" (writeTreePayload lc items)

/-- JS `Array.prototype.indexOf(v, from)`: the first index `≥ from` holding
`v`, or `-1`. -/
def jsIndexOfFrom (l : List Nat) (v : Nat) (start : Nat) : Int :=
  match (l.drop start).findIdx? (fun b => b == v) with
  | some i => ((start + i : Nat) : Int)
  | none => -1

/-- Clamp of one ECMAScript `slice` index argument. -/
def jsClamp (len : Nat) (i : Int) : Nat :=
  if i < 0 then (len + i).toNat else min i.toNat len

/-- ECMAScript `Array.prototype.slice(start, stop)` (negative indices count
from the end, both are clamped to the array). -/
def jsSlice (l : List Nat) (start stop : Int) : List Nat :=
  let s := jsClamp l.length start
  let e := jsClamp l.length stop
  (l.drop s).take (e - s)

/-- The scan loop of `Git.parseTree` with explicit fuel: each iteration
reads `<mode> <name>\0<20-byte-id>` at `pos` via `indexOf`/`slice` and
assigns the kind from the mode prefix (`100` ⇒ blob, `160` ⇒ submodule,
anything else ⇒ tree).  On certain malformed payloads `indexOf` returns
`-1` and `pos` stops advancing, so the source loop never exits; `none` here
means the loop is still running after `fuel` iterations. -/
def parseTreeGo (content : List Nat) : Nat → Nat → Option (List TreeItem)
  | 0, _ => none
  | fuel + 1, pos =>
    if pos < content.length then
      let spacePos := jsIndexOfFrom content 32 pos
      let mode := arrayToString (jsSlice content pos spacePos)
      let pos1 := (spacePos + 1).toNat
      let nullPos := jsIndexOfFrom content 0 pos1
      let name := arrayToString (jsSlice content pos1 nullPos)
      let pos2 := (nullPos + 1).toNat
      let objectId := unpackSha (jsSlice content pos2 (pos2 + 20))
      let t := if jsStartsWith mode "100" then "blob"
               else if jsStartsWith mode "160" then "submodule"
               else "tree"
      (parseTreeGo content fuel (pos2 + 20)).map
        (fun rest => ⟨t, name, objectId⟩ :: rest)
    else some []

/-- `Git.parseTree` on a payload (an iteration either advances `pos` or
repeats the same state forever, so `content.length + 1` iterations decide
the loop). -/
def parseTree (content : List Nat) : Option (List TreeItem) :=
  parseTreeGo content (content.length + 1) 0

/-- Well-formedness of a tree entry for the round-trip theorem: kind `blob`
or `tree`, a NUL-free ASCII name, and a 40-hex id (this is the data model of
the claim, restricted to the ASCII range where the code-unit model of
`encodeUTF8`/`decodeUTF8` is exact). -/
def wfItem (e : TreeItem) : Prop :=
  (e.type = "blob" ∨ e.type = "tree") ∧
    (∀ c ∈ e.name.data, 0 < c.toNat ∧ c.toNat < 128) ∧
    isSha e.id = true

instance wfItemDec (e : TreeItem) : Decidable (wfItem e) := by
  unfold wfItem
  infer_instance

/-- Comparison of two character lists by code point (on ASCII strings this
is exactly byte-wise comparison of the UTF-8 encodings). -/
def charListCompare : List Char → List Char → Int
  | [], [] => 0
  | [], _ :: _ => -1
  | _ :: _, [] => 1
  | a :: as, b :: bs =>
    if a.toNat < b.toNat then -1
    else if b.toNat < a.toNat then 1
    else charListCompare as bs

/-- Byte-wise string comparison (the ordering the claim asserts for tree
entries). -/
def byteCompare (a b : String) : Int := charListCompare a.data b.data

/-- ASCII case folding (upper to lower), the primary-strength projection a
typical host collation applies to Latin letters. -/
def lowerChar (c : Char) : Char :=
  if 'A' ≤ c ∧ c ≤ 'Z' then Char.ofNat (c.toNat + 32) else c

/-- A conforming host collator that, like the ICU root collation used by
browsers for `localeCompare`, orders `a` before `B`: compare the
case-folded strings by code point. -/
def icuLike (a b : String) : Int :=
  charListCompare (a.data.map lowerChar) (b.data.map lowerChar)

/-! ### The object store and the tree navigator -/

/-- The byte layout written by `writeObject` and expected back by
`readUnpackedObject`: `"<type> <len>\0<payload>"`. -/
def objBytes (type : String) (payload : List Nat) : List Nat :=
  stringToArray (type ++ " " ++ toString payload.length) ++ [0] ++ payload

/-- JS one-argument `slice(start)`: to the end of the array. -/
def jsSliceFrom (l : List Nat) (start : Int) : List Nat :=
  jsSlice l start (l.length : Int)

/-- Join a list of strings with a separator character
(`Array.prototype.join`). -/
def jsJoin (sep : Char) : List String → String
  | [] => ""
  | [s] => s
  | s :: rest => s ++ String.singleton sep ++ jsJoin sep rest

/-- The byte `new Uint8Array(value)` produces from one character of a JS
*string* argument: the typed-array constructor iterates the string and
applies `ToNumber` to each one-character string, giving the digit's value
for `0`-`9` and `NaN` — hence `0` after `ToUint8` — for everything else. -/
def charNumByte (c : Char) : Nat :=
  if '0' ≤ c ∧ c ≤ '9' then c.toNat - 48 else 0

/-- `Git.decodeUTF8` as `parseCommit`/`parseTag` actually call it — on a
*string* `value`, not a byte array: `new TextDecoder('utf-8').decode(new
Uint8Array(value))`.  Every resulting byte is `< 128`, so the UTF-8 decode
maps each byte to its code point. -/
def decodeUTF8Str (s : String) : String :=
  ⟨s.data.map (fun c => Char.ofNat (charNumByte c))⟩

/-- A parsed commit object. -/
structure CommitObj where
  tree : String
  parents : List String
  author : String
  committer : String
  message : String
deriving DecidableEq, Repr

/-- One header line of `parseCommit`:
`[key, ...valueParts] = line.split(' '); value = valueParts.join(' ')`. -/
def commitFieldStep (c : CommitObj) (line : String) : CommitObj :=
  let parts := jsSplit line ' '
  let key := parts.headD ""
  let value := jsJoin ' ' parts.tail
  if key = "tree" then { c with tree := value }
  else if key = "parent" then { c with parents := c.parents ++ [value] }
  else if key = "author" then { c with author := decodeUTF8Str value }
  else if key = "committer" then { c with committer := decodeUTF8Str value }
  else c

/-- `Git.parseCommit`: process header lines up to the first blank line, then
take the rest as the message (when no blank line exists, `messageStart`
stays `0`, as in the source). -/
def parseCommit (content : List Nat) : CommitObj :=
  let lines := jsSplit (arrayToString content) '\n'
  let messageStart :=
    match lines.findIdx? (fun l => l == "") with
    | some i => i + 1
    | none => 0
  let base := (lines.takeWhile (fun l => l != "")).foldl commitFieldStep
    ⟨"", [], "", "", ""⟩
  { base with message := decodeUTF8Str (jsJoin '\n' (lines.drop messageStart)) }

/-- A parsed tag object. -/
structure TagObj where
  target : String
  type : String
  tag : String
  tagger : String
  message : String
deriving DecidableEq, Repr

/-- One header line of `parseTag`. -/
def tagFieldStep (t : TagObj) (line : String) : TagObj :=
  let parts := jsSplit line ' '
  let key := parts.headD ""
  let value := jsJoin ' ' parts.tail
  if key = "object" then { t with target := value }
  else if key = "type" then { t with type := value }
  else if key = "tag" then { t with tag := value }
  else if key = "tagger" then { t with tagger := decodeUTF8Str value }
  else t

/-- `Git.parseTag`, mirroring `parseCommit`. -/
def parseTag (content : List Nat) : TagObj :=
  let lines := jsSplit (arrayToString content) '\n'
  let messageStart :=
    match lines.findIdx? (fun l => l == "") with
    | some i => i + 1
    | none => 0
  let base := (lines.takeWhile (fun l => l != "")).foldl tagFieldStep
    ⟨"", "", "", "", ""⟩
  { base with message := decodeUTF8Str (jsJoin '\n' (lines.drop messageStart)) }

/-- The envelope `readObject` returns: `{ type, content, id }` with raw
payload bytes. -/
structure RawObject where
  type : String
  content : List Nat
  id : String
deriving DecidableEq, Repr

/-- The content of an object after `readUnknownObject` has decoded it
according to its kind. -/
inductive ObjContent where
  | bytes (l : List Nat)
  | items (l : List TreeItem)
  | commitObj (c : CommitObj)
  | tagObj (t : TagObj)
deriving DecidableEq, Repr

/-- The object `readUnknownObject` returns. -/
structure GitObject where
  type : String
  content : ObjContent
  id : String
deriving DecidableEq, Repr

/-- The entry list of a decoded tree object (`treeObject.content` at the
`find` call of `readTreeItem`; only ever applied after the `type === 'tree'`
check, where the content is the parsed entry list by construction). -/
def ObjContent.itemList : ObjContent → List TreeItem
  | ObjContent.items l => l
  | _ => []

/-- `Git.readUnpackedObject(id)`: read `objects/<id[0:2]>/<id[2:]>`, inflate
(the source's `inflate` is the identity placeholder), split the envelope at
the first space and the first NUL: `{type, content, id}`. -/
def readUnpackedObject (store : Store) (id : String) : Except String RawObject :=
  match store (objPath id) with
  | none => Except.error ("Failed to read file: " ++ objPath id)
  | some compressed =>
    let decompressed := inflate compressed
    let spaceIndex := jsIndexOfFrom decompressed 32 0
    let nullIndex := jsIndexOfFrom decompressed 0 0
    Except.ok
      ⟨arrayToString (jsSlice decompressed 0 spaceIndex),
        jsSliceFrom decompressed (nullIndex + 1), id⟩

/-- `Git.readObject(id)`: the packed index of this source is always empty
(`findPackedObjects` returns `[]`), so the unpacked path is taken; a failure
is rewrapped as `Failed to read object <id>: ...`.  The in-memory cache only
replays the value computed here for the same id, so it is dropped from the
pure model. -/
def readObject (store : Store) (id : String) : Except String RawObject :=
  match readUnpackedObject store id with
  | Except.error e => Except.error ("Failed to read object " ++ id ++ ": " ++ e)
  | Except.ok raw => Except.ok raw

/-- `Git.readUnknownObject(id)`: decode the content by the envelope type
(`blob`, `tree`, `commit`, `tag`; anything else stays raw).  `none` means
the tree scan loop diverged (malformed payload). -/
def readUnknownObjectO (store : Store) (id : String) :
    Option (Except String GitObject) :=
  match readObject store id with
  | Except.error e => some (Except.error e)
  | Except.ok raw =>
    if raw.type = "blob" then
      some (Except.ok ⟨raw.type, ObjContent.bytes raw.content, raw.id⟩)
    else if raw.type = "tree" then
      match parseTree raw.content with
      | none => none
      | some items => some (Except.ok ⟨raw.type, ObjContent.items items, raw.id⟩)
    else if raw.type = "commit" then
      some (Except.ok ⟨raw.type, ObjContent.commitObj (parseCommit raw.content), raw.id⟩)
    else if raw.type = "tag" then
      some (Except.ok ⟨raw.type, ObjContent.tagObj (parseTag raw.content), raw.id⟩)
    else
      some (Except.ok ⟨raw.type, ObjContent.bytes raw.content, raw.id⟩)

/-- `Git.readTreeItem(tree, path)` on an already-split segment list: an
empty list returns the object itself; otherwise the object must be a tree,
the entry named by the first segment is looked up (`find`), and the walk
recurses on that entry's id with the remaining segments. -/
def readTreeItemSegs (store : Store) : List String → String → Option (Except String GitObject)
  | [], tree => readUnknownObjectO store tree
  | seg :: rest, tree =>
    match readUnknownObjectO store tree with
    | none => none
    | some (Except.error e) => some (Except.error e)
    | some (Except.ok obj) =>
      if obj.type ≠ "tree" then
        some (Except.error (tree ++ " is not a tree"))
      else
        match (obj.content.itemList).find? (fun it => it.name == seg) with
        | none =>
          some (Except.error ("Tree " ++ tree ++ " has no object named " ++ seg))
        | some file => readTreeItemSegs store rest file.id

/-- `Git.readTreeItem(tree, path)` with a string path:
`path.split('/').filter(part => part.length > 0)`, then walk. -/
def readTreeItem (store : Store) (tree path : String) :
    Option (Except String GitObject) :=
  readTreeItemSegs store
    ((jsSplit path '/').filter (fun part => decide (0 < part.length))) tree

/-- A blob entry named `a` (lowercase). -/
def itemAa : TreeItem := ⟨"blob", "a", String.mk (List.replicate 40 'a')⟩

/-- A blob entry named `B` (uppercase). -/
def itemBb : TreeItem := ⟨"blob", "B", String.mk (List.replicate 40 'b')⟩

/-- A blob entry whose name is the four characters `foo/`. -/
def itemFooSlash : TreeItem := ⟨"blob", "foo/", String.mk (List.replicate 40 'a')⟩

/-- A tree entry named `foo` — its slash-adjusted sort key collides with the
name of `itemFooSlash`. -/
def itemFooTree : TreeItem := ⟨"tree", "foo", String.mk (List.replicate 40 'b')⟩

/-- A submodule entry, for the tree round-trip counterexample. -/
def itemSubm : TreeItem := ⟨"submodule", "m", String.mk (List.replicate 40 'a')⟩

/-- A ref store whose only content is a packed-refs table listing
`refs/heads/dev`; there are no loose ref files. -/
def packedOnlyStore : Store :=
  fun p =>
    if p = "packed-refs" then
      some (stringToArray (String.mk (List.replicate 40 'a') ++ " refs/heads/dev\n"))
    else none

/-- A store with one loose branch ref holding a 40-hex id. -/
def oneLooseStore : Store :=
  fun p =>
    if p = "refs/heads/dev" then
      some (stringToArray (String.mk (List.replicate 40 'b')))
    else none

/-- A directory store with one loose ref, for the `getRefList` witness. -/
def oneDirStore : DirStore :=
  fun p => if p = "refs" then some (["heads/dev"]) else none

/-- A file store whose packed-refs table lists the loose name again plus a
tag, for the `getRefList` witness. -/
def packedWitnessStore : Store :=
  fun p =>
    if p = "packed-refs" then
      some (stringToArray
        ("# pack-refs with: peeled\n" ++
          String.mk (List.replicate 40 'a') ++ " refs/heads/dev\n" ++
          String.mk (List.replicate 40 'c') ++ " refs/tags/v1\n"))
    else none

/-- An object store with one tree object (id `aaa...a`) holding a single
blob entry `f`, and that blob object (id `bbb...b`). -/
def navStore : Store :=
  fun p =>
    if p = objPath (String.mk (List.replicate 40 'a')) then
      some (objBytes "tree"
        (entryRecord ⟨"blob", "f", String.mk (List.replicate 40 'b')⟩))
    else if p = objPath (String.mk (List.replicate 40 'b')) then
      some (objBytes "blob" (stringToArray "hi"))
    else none

/-- A ref store whose `HEAD` is the symbolic ref `ref: HEAD`, i.e. a
self-referencing symbolic chain. -/
def selfCycleStore : Store :=
  fun p => if p = "HEAD" then some (stringToArray "ref: HEAD") else none

/-- A ref store for the compare-and-set claim: `refs/heads/master` currently
holds commit id `aaaa...a`. -/
def casStore : Store :=
  fun p =>
    if p = "refs/heads/master" then
      some (stringToArray (String.mk (List.replicate 40 'a')))
    else none

/-! ### Facts about hexadecimal digits and the string helpers -/

/-- C2: on a ref store whose `HEAD` points at itself, `Git.getRef` never
finishes: for every hop bound `fuel` the resolution has produced neither a
value nor an error.  The source has no hop bound and no visited-name set, so
a cyclic `ref:` chain recurses forever instead of failing with a
`ResolutionError`. -/
theorem getRef_self_cycle_diverges :
    ∀ fuel : Nat, getRefF selfCycleStore fuel "HEAD" = none := by
  intro fuel
  induction fuel with
  | zero => rfl
  | succ n ih =>
    show getRefF selfCycleStore n "HEAD" = none
    exact ih

/-- C1: `Git.writeObject('blob', bytes("hello\n"))` returns the placeholder
string `placeholder_sha` — `Git.sha` ignores its input — and not the
content hash named by the specification (whose quoted value is, moreover,
39 hex digits long, so it is not even a well-formed 40-hex object id). -/
theorem writeObject_blob_hello_placeholder :
    (writeObject emptyStore "blob" (stringToArray "hello\n")).1 = "placeholder_sha" ∧
      "placeholder_sha" ≠ "ce013625030ba8dba906f756967f9e9ca394464" ∧
      isSha "placeholder_sha" = false := by
  refine ⟨rfl, ?_, ?_⟩ <;> decide

/-- C8: the publish step (`Repository.saveFile` line `await
this.vcs.setRef(...)`, backed by `Git.setRef`) is an unconditional overwrite:
with the ref currently at `aaaa...a` and a caller whose expected parent is the
different id `bbbb...b`, the ref is still rewritten to the new commit id
`cccc...c`, and no comparison with the expected parent happens anywhere
(`Git.setRef` is total — it cannot fail, so no `ConflictError` exists). -/
theorem setRef_overwrites_despite_stale_parent :
    (String.mk (List.replicate 40 'a') ≠ String.mk (List.replicate 40 'b')) ∧
      casStore "refs/heads/master" =
        some (stringToArray (String.mk (List.replicate 40 'a'))) ∧
      setRef casStore "refs/heads/master" (String.mk (List.replicate 40 'c'))
          "refs/heads/master" =
        some (stringToArray (String.mk (List.replicate 40 'c'))) := by
  refine ⟨by decide, rfl, ?_⟩
  simp [setRef, writeFileS]

/-- Every lowercase hex digit satisfies: `hexDigit` inverts `hexVal`, its
value is below 16, it is not JS whitespace, and it is not the letter `r`. -/
theorem hexChars_facts :
    hexChars.all
      (fun c =>
        hexDigit (hexVal c) == c && decide (hexVal c < 16) &&
          !jsIsWs c && !(c == 'r')) = true := by
  decide

/-- Unpacked form of `hexChars_facts` for a single digit. -/
theorem hex_prop {c : Char} (h : c ∈ hexChars) :
    hexDigit (hexVal c) = c ∧ hexVal c < 16 ∧ jsIsWs c = false ∧ c ≠ 'r' := by
  have hall := List.all_eq_true.mp hexChars_facts c h
  simp only [Bool.and_eq_true, beq_iff_eq, decide_eq_true_eq, Bool.not_eq_true',
    beq_eq_false_iff_ne, ne_eq] at hall
  exact ⟨hall.1.1.1, hall.1.1.2, hall.1.2, hall.2⟩

/-- `unpackSha` inverts `packSha` on even-length lowercase hex strings. -/
theorem unpackShaChars_packShaChars :
    ∀ l : List Char, (∀ c ∈ l, c ∈ hexChars) → l.length % 2 = 0 →
      unpackShaChars (packShaChars l) = l
  | [], _, _ => rfl
  | [_], _, he => by simp at he
  | c1 :: c2 :: rest, hl, he => by
    have h1 := hex_prop (hl c1 (by simp))
    have h2 := hex_prop (hl c2 (by simp))
    have hdiv : (hexVal c1 * 16 + hexVal c2) / 16 = hexVal c1 := by omega
    have hmod : (hexVal c1 * 16 + hexVal c2) % 16 = hexVal c2 := by omega
    have ih := unpackShaChars_packShaChars rest
      (fun c hc => hl c (by simp [hc])) (by simp at he; omega)
    simp [packShaChars, unpackShaChars, hdiv, hmod, h1.1, h2.1]
    simpa [unpackShaChars] using ih

/-- `dropWhile` is the identity when no element satisfies the predicate. -/
theorem dropWhile_eq_self_of_all {p : Char → Bool} :
    ∀ {l : List Char}, (∀ c ∈ l, p c = false) → l.dropWhile p = l
  | [], _ => rfl
  | a :: l, h => by
    simp [List.dropWhile_cons, h a (by simp)]

/-- `jsTrim` is the identity on strings with no whitespace characters. -/
theorem jsTrim_eq_self {s : String} (h : ∀ c ∈ s.data, jsIsWs c = false) :
    jsTrim s = s := by
  obtain ⟨data⟩ := s
  simp only [jsTrim]
  rw [dropWhile_eq_self_of_all h, dropWhile_eq_self_of_all
    (fun c hc => h c (List.mem_reverse.mp hc)), List.reverse_reverse]

/-- `arrayToString` inverts `stringToArray`. -/
theorem arrayToString_stringToArray (s : String) :
    arrayToString (stringToArray s) = s := by
  obtain ⟨data⟩ := s
  simp [arrayToString, stringToArray, Function.comp_def]

/-- Splitting `isSha`. -/
theorem isSha_elim {s : String} (h : isSha s = true) :
    s.data.length = 40 ∧ ∀ c ∈ s.data, c ∈ hexChars := by
  simp only [isSha, Bool.and_eq_true, beq_iff_eq, List.all_eq_true,
    decide_eq_true_eq] at h
  exact h

/-- A string of lowercase hex digits does not start with `ref:`. -/
theorem hex_not_ref {s : String} (hlen : s.data.length = 40)
    (hhex : ∀ c ∈ s.data, c ∈ hexChars) :
    jsStartsWith s "ref:" = false := by
  obtain ⟨data⟩ := s
  match data, hlen, hhex with
  | c :: rest, hlen, hhex =>
    have hc := (hex_prop (hhex c (by simp))).2.2.2
    simp only [jsStartsWith]
    show List.isPrefixOf ('r' :: ['e', 'f', ':']) (c :: rest) = false
    simp [List.isPrefixOf_cons₂]
    intro hrc
    exact absurd hrc.symm hc

/-- A ref file holding the bytes of a 40-hex id resolves to that id in one
`getRef` step: the content trims to itself and does not start with the
symbolic marker `ref:`. -/
theorem getRefF_direct (store : Store) (path id : String) (fuel : Nat)
    (hid : isSha id = true) (h : store path = some (stringToArray id)) :
    getRefF store (fuel + 1) path = some (Except.ok id) := by
  obtain ⟨hlen, hhex⟩ := isSha_elim hid
  have hts : arrayToString (stringToArray id) = id := arrayToString_stringToArray id
  have htrim : jsTrim id = id :=
    jsTrim_eq_self (fun c hc => (hex_prop (hhex c hc)).2.2.1)
  have hns : jsStartsWith id "ref:" = false := hex_not_ref hlen hhex
  simp [getRefF, h, hts, htrim, hns]

/-- A `getRef` on a path the store has no file at fails with `Unknown ref`. -/
theorem getRefF_absent (store : Store) (path : String) (fuel : Nat)
    (h : store path = none) :
    getRefF store (fuel + 1) path = some (Except.error ("Unknown ref: " ++ path)) := by
  simp [getRefF, h]

/-- C10: writing a direct ref and reading it back.  For every 40-hex id,
`Git.setRef(name, id)` stores the id's bytes at the ref path, and
`Git.getRef(name)` on the resulting store returns exactly `id`: the stored
content trims to itself and does not start with the symbolic marker `ref:`,
so `getRef` takes the terminal branch after a single read. -/
theorem setRef_getRef_roundtrip (store : Store) (ref id : String) (fuel : Nat)
    (h : isSha id = true) :
    getRefF (setRef store ref id) (fuel + 1) ref = some (Except.ok id) :=
  getRefF_direct _ ref id fuel h (by simp [setRef, writeFileS])

/-- Witness for `setRef_getRef_roundtrip` at a concrete id and ref name. -/
theorem setRef_getRef_roundtrip_witness :
    isSha (String.mk (List.replicate 40 'a')) = true ∧
      getRefF (setRef emptyStore "refs/heads/dev" (String.mk (List.replicate 40 'a'))) 1
          "refs/heads/dev" =
        some (Except.ok (String.mk (List.replicate 40 'a'))) :=
  ⟨by decide,
    setRef_getRef_roundtrip emptyStore "refs/heads/dev"
      (String.mk (List.replicate 40 'a')) 0 (by decide)⟩

/-! ### The friendly resolve entry point (`getBranchCommit`) -/

/-- C5 counterexample: with `refs/heads/dev` present in the packed-ref table
but no loose ref file, `Git.getBranchCommit('dev')` fails with
`Could not find branch` — the source never consults the packed table in this
path, although `getRefList` (the listing operation) does parse that very
table and lists the name. -/
theorem getBranchCommit_ignores_packed_refs :
    "refs/heads/dev" ∈ getRefList (fun _ => none) packedOnlyStore ∧
      getBranchCommitF packedOnlyStore 1 "dev" =
        some (Except.error "Could not find branch: dev") := by
  constructor
  · decide
  · rfl

/-- C5 as amended: a full 40-hex argument is returned unchanged whatever the
store (no storage access); otherwise, for a nonempty non-hex name,
`refs/heads/<name>` is tried first, then `refs/tags/<name>`, and when neither
loose ref file exists the call fails with `Could not find branch` — there is
no packed-ref fallback. -/
theorem getBranchCommit_spec (store : Store) (branch id : String) (fuel : Nat)
    (hid : isSha id = true) :
    (∀ s : Store, getBranchCommitF s (fuel + 1) id = some (Except.ok id)) ∧
      (isSha branch = false → branch ≠ "" →
        (store ("refs/heads/" ++ branch) = some (stringToArray id) →
            getBranchCommitF store (fuel + 1) branch = some (Except.ok id)) ∧
          (store ("refs/heads/" ++ branch) = none →
              store ("refs/tags/" ++ branch) = some (stringToArray id) →
              getBranchCommitF store (fuel + 1) branch = some (Except.ok id)) ∧
          (store ("refs/heads/" ++ branch) = none →
              store ("refs/tags/" ++ branch) = none →
              getBranchCommitF store (fuel + 1) branch =
                some (Except.error ("Could not find branch: " ++ branch)))) := by
  constructor
  · intro s
    simp [getBranchCommitF, hid]
  · intro hb hne
    refine ⟨?_, ?_, ?_⟩
    · intro hh
      have := getRefF_direct store ("refs/heads/" ++ branch) id fuel hid hh
      simp [getBranchCommitF, hb, hne, this]
    · intro hh ht
      have h1 := getRefF_absent store ("refs/heads/" ++ branch) fuel hh
      have h2 := getRefF_direct store ("refs/tags/" ++ branch) id fuel hid ht
      simp [getBranchCommitF, hb, hne, h1, h2]
    · intro hh ht
      have h1 := getRefF_absent store ("refs/heads/" ++ branch) fuel hh
      have h2 := getRefF_absent store ("refs/tags/" ++ branch) fuel ht
      simp [getBranchCommitF, hb, hne, h1, h2]

/-- Witness for `getBranchCommit_spec`: a concrete store with a loose
`refs/heads/dev` ref; resolving the branch name returns its id and resolving
a 40-hex argument returns it unchanged. -/
theorem getBranchCommit_spec_witness :
    isSha (String.mk (List.replicate 40 'b')) = true ∧
      ((∀ s : Store,
          getBranchCommitF s 1 (String.mk (List.replicate 40 'b')) =
            some (Except.ok (String.mk (List.replicate 40 'b')))) ∧
        (isSha "dev" = false → "dev" ≠ "" →
          (oneLooseStore ("refs/heads/dev") =
              some (stringToArray (String.mk (List.replicate 40 'b'))) →
              getBranchCommitF oneLooseStore 1 "dev" =
                some (Except.ok (String.mk (List.replicate 40 'b')))) ∧
            (oneLooseStore ("refs/heads/dev") = none →
                oneLooseStore ("refs/tags/dev") =
                  some (stringToArray (String.mk (List.replicate 40 'b'))) →
                getBranchCommitF oneLooseStore 1 "dev" =
                  some (Except.ok (String.mk (List.replicate 40 'b')))) ∧
            (oneLooseStore ("refs/heads/dev") = none →
                oneLooseStore ("refs/tags/dev") = none →
                getBranchCommitF oneLooseStore 1 "dev" =
                  some (Except.error ("Could not find branch: dev"))))) :=
  ⟨by decide, getBranchCommit_spec oneLooseStore "dev" (String.mk (List.replicate 40 'b')) 0
    (by decide)⟩

/-! ### Listing refs (`getRefList`) -/

/-- Membership after one `packedStep`. -/
theorem mem_packedStep {r : String} (acc : List String) (line : String) :
    r ∈ packedStep acc line ↔ r ∈ acc ∨ packedLineName line = some r := by
  unfold packedStep packedLineName
  by_cases hc : jsTrim line ≠ "" ∧ jsStartsWith line "#" = false
  · simp only [if_pos hc]
    match (jsSplit line ' ')[1]? with
    | some tok =>
      by_cases h1 : tok = ""
      · simp [h1]
      · by_cases h2 : tok ∈ acc
        · have hne : ¬(tok ≠ "" ∧ tok ∉ acc) := fun h => h.2 h2
          simp only [if_neg hne, if_pos h1, Option.some.injEq]
          constructor
          · exact Or.inl
          · rintro (h | h)
            · exact h
            · rwa [h] at h2
        · have hy : tok ≠ "" ∧ tok ∉ acc := ⟨h1, h2⟩
          simp only [if_pos hy, if_pos h1, List.mem_append,
            List.mem_singleton, Option.some.injEq]
          constructor
          · rintro (h | h)
            · exact Or.inl h
            · exact Or.inr h.symm
          · rintro (h | h)
            · exact Or.inl h
            · exact Or.inr h.symm
    | none => simp
  · simp [if_neg hc]

/-- Membership in the folded packed-refs loop. -/
theorem mem_foldl_packedStep {r : String} :
    ∀ (lines : List String) (acc : List String),
      r ∈ lines.foldl packedStep acc ↔ r ∈ acc ∨ r ∈ packedNames lines
  | [], acc => by simp [packedNames]
  | line :: rest, acc => by
    rw [List.foldl_cons, mem_foldl_packedStep rest, mem_packedStep]
    simp only [packedNames, List.filterMap_cons]
    match h : packedLineName line with
    | some tok => simp [h, or_assoc, eq_comm]
    | none => simp [h]

/-- `packedStep` preserves freedom from duplicates. -/
theorem nodup_packedStep {acc : List String} (h : acc.Nodup) (line : String) :
    (packedStep acc line).Nodup := by
  unfold packedStep
  by_cases hc : jsTrim line ≠ "" ∧ jsStartsWith line "#" = false
  · simp only [if_pos hc]
    match (jsSplit line ' ')[1]? with
    | some tok =>
      by_cases he : tok ≠ "" ∧ tok ∉ acc
      · simp only [if_pos he]
        exact List.Nodup.append h (List.nodup_singleton tok)
          (List.disjoint_singleton.mpr he.2)
      · simp [if_neg he, h]
    | none => exact h
  · simp [if_neg hc, h]

/-- The folded packed-refs loop preserves freedom from duplicates. -/
theorem nodup_foldl_packedStep :
    ∀ (lines : List String) {acc : List String}, acc.Nodup →
      (lines.foldl packedStep acc).Nodup
  | [], _, h => h
  | line :: rest, acc, h => by
    rw [List.foldl_cons]
    exact nodup_foldl_packedStep rest (nodup_packedStep h line)

/-- C9: `Git.getRefList()` returns exactly the union of the loose
ref-directory entries (prefixed `refs/`) and the names listed by the
packed-ref table, deduplicated (a packed name equal to an already-listed
name is skipped, so a loose entry takes precedence); when the loose listing
is duplicate-free so is the result; and when both the refs directory and the
packed-refs file are absent the result is empty rather than an error. -/
theorem getRefList_spec (dirs : DirStore) (files : Store)
    (hnd : (looseRefs dirs).Nodup) :
    (∀ r, r ∈ getRefList dirs files ↔
        r ∈ looseRefs dirs ∨ r ∈ packedNames (packedLines files)) ∧
      (getRefList dirs files).Nodup ∧
      (dirs "refs" = none → files "packed-refs" = none →
        getRefList dirs files = []) := by
  refine ⟨?_, ?_, ?_⟩
  · intro r
    unfold getRefList packedLines
    match files "packed-refs" with
    | none => simp [packedNames]
    | some packedRefs => exact mem_foldl_packedStep _ _
  · unfold getRefList
    match files "packed-refs" with
    | none => exact hnd
    | some packedRefs => exact nodup_foldl_packedStep _ hnd
  · intro hd hf
    unfold getRefList looseRefs
    rw [hd, hf]

/-- Witness for `getRefList_spec`: one loose ref and a packed table listing
the same name plus one tag; the listing contains both names once, the
comment line is skipped, and the duplicate packed entry is dropped. -/
theorem getRefList_spec_witness :
    (looseRefs oneDirStore).Nodup ∧
      getRefList oneDirStore packedWitnessStore =
        ["refs/heads/dev", "refs/tags/v1"] ∧
      ((∀ r, r ∈ getRefList oneDirStore packedWitnessStore ↔
          r ∈ looseRefs oneDirStore ∨
            r ∈ packedNames (packedLines packedWitnessStore)) ∧
        (getRefList oneDirStore packedWitnessStore).Nodup ∧
        (oneDirStore "refs" = none → packedWitnessStore "packed-refs" = none →
          getRefList oneDirStore packedWitnessStore = [])) :=
  ⟨by decide, by decide, getRefList_spec oneDirStore packedWitnessStore (by decide)⟩

/-! ### The tree scan loop -/

/-- `findIdx?` locates the separator after a separator-free prefix. -/
theorem findIdx?_sep {v : Nat} :
    ∀ (xs ys : List Nat), v ∉ xs →
      (xs ++ v :: ys).findIdx? (fun b => b == v) = some xs.length
  | [], _, _ => by simp
  | x :: xs, ys, h => by
    have hx : (x == v) = false := by
      simp only [beq_eq_false_iff_ne, ne_eq]
      exact fun e => h (by simp [e])
    rw [List.cons_append, List.findIdx?_cons, if_neg (by simp [hx]),
      List.findIdx?_succ,
      findIdx?_sep xs ys (fun hm => h (List.mem_cons_of_mem _ hm))]
    rfl

/-- `jsIndexOfFrom` through the drop view. -/
theorem jsIndexOfFrom_eq (l : List Nat) (v : Nat) (start : Nat) (xs ys : List Nat)
    (hdrop : l.drop start = xs ++ v :: ys) (hv : v ∉ xs) :
    jsIndexOfFrom l v start = ((start + xs.length : Nat) : Int) := by
  unfold jsIndexOfFrom
  rw [hdrop, findIdx?_sep xs ys hv]

/-- `jsClamp` on a natural index within bounds. -/
theorem jsClamp_nat (len n : Nat) (h : n ≤ len) : jsClamp len (n : Int) = n := by
  unfold jsClamp
  rw [if_neg (by omega)]
  simp [h]

/-- `jsSlice` with in-range natural bounds. -/
theorem jsSlice_nat (l : List Nat) (s e : Nat) (hse : s ≤ e) (hel : e ≤ l.length) :
    jsSlice l (s : Int) (e : Int) = (l.drop s).take (e - s) := by
  unfold jsSlice
  rw [jsClamp_nat _ _ (le_trans hse hel), jsClamp_nat _ _ hel]

/-- `jsSlice` extracts a middle chunk, through the drop view. -/
theorem jsSlice_eq (l : List Nat) (s e : Nat) (mid post : List Nat)
    (hsl : s ≤ l.length) (hdrop : l.drop s = mid ++ post)
    (he : e = s + mid.length) :
    jsSlice l (s : Int) (e : Int) = mid := by
  have hlen : l.length = s + mid.length + post.length := by
    have := congrArg List.length hdrop
    simp only [List.length_drop, List.length_append] at this
    omega
  rw [jsSlice_nat _ _ _ (by omega) (by omega), hdrop, he]
  simp [List.take_left']

/-- The loop exits as soon as `pos` reaches the end of the payload. -/
theorem parseTreeGo_end (content : List Nat) (fuel : Nat) (pos : Nat)
    (h : content.length ≤ pos) : parseTreeGo content (fuel + 1) pos = some [] := by
  simp only [parseTreeGo]
  rw [if_neg (by omega)]

/-- One iteration of the scan loop over a well-formed record
`<mode> <name>\0<20-byte-id>` placed after a prefix of known length: the
record is decoded field by field and the loop continues right after it. -/
theorem parseTreeGo_step (pre modeB nameB sha20 rest : List Nat) (fuel : Nat)
    (hm : 32 ∉ modeB) (hn : 0 ∉ nameB) (hs : sha20.length = 20) :
    parseTreeGo (pre ++ modeB ++ [32] ++ nameB ++ [0] ++ sha20 ++ rest) (fuel + 1)
        pre.length =
      (parseTreeGo (pre ++ modeB ++ [32] ++ nameB ++ [0] ++ sha20 ++ rest) fuel
          (pre.length + modeB.length + nameB.length + 22)).map
        (fun items =>
          (⟨if jsStartsWith (arrayToString modeB) "100" then "blob"
            else if jsStartsWith (arrayToString modeB) "160" then "submodule"
            else "tree", arrayToString nameB, unpackSha sha20⟩ : TreeItem) :: items) := by
  have hassoc :
      pre ++ modeB ++ [32] ++ nameB ++ [0] ++ sha20 ++ rest =
        pre ++ (modeB ++ 32 :: (nameB ++ 0 :: (sha20 ++ rest))) := by
    simp [List.append_assoc]
  have hd0 :
      (pre ++ modeB ++ [32] ++ nameB ++ [0] ++ sha20 ++ rest).drop pre.length =
        modeB ++ 32 :: (nameB ++ 0 :: (sha20 ++ rest)) := by
    rw [hassoc, List.drop_left]
  have hd1 :
      (pre ++ modeB ++ [32] ++ nameB ++ [0] ++ sha20 ++ rest).drop
          (pre.length + modeB.length + 1) =
        nameB ++ 0 :: (sha20 ++ rest) := by
    have : pre ++ modeB ++ [32] ++ nameB ++ [0] ++ sha20 ++ rest =
        (pre ++ modeB ++ [32]) ++ (nameB ++ 0 :: (sha20 ++ rest)) := by
      simp [List.append_assoc]
    rw [this, List.drop_left' (by simp only [List.length_append,
      List.length_cons, List.length_nil]; try omega)]
  have hd2 :
      (pre ++ modeB ++ [32] ++ nameB ++ [0] ++ sha20 ++ rest).drop
          (pre.length + modeB.length + nameB.length + 2) =
        sha20 ++ rest := by
    have : pre ++ modeB ++ [32] ++ nameB ++ [0] ++ sha20 ++ rest =
        (pre ++ modeB ++ [32] ++ nameB ++ [0]) ++ (sha20 ++ rest) := by
      simp [List.append_assoc]
    rw [this, List.drop_left' (by simp only [List.length_append,
      List.length_cons, List.length_nil]; try omega)]
  have hlen :
      (pre ++ modeB ++ [32] ++ nameB ++ [0] ++ sha20 ++ rest).length =
        pre.length + modeB.length + nameB.length + 22 + rest.length := by
    simp [List.length_append, hs]
    omega
  have hspace :
      jsIndexOfFrom (pre ++ modeB ++ [32] ++ nameB ++ [0] ++ sha20 ++ rest) 32
          pre.length = ((pre.length + modeB.length : Nat) : Int) :=
    jsIndexOfFrom_eq _ 32 pre.length modeB _ hd0 hm
  have hmode :
      jsSlice (pre ++ modeB ++ [32] ++ nameB ++ [0] ++ sha20 ++ rest)
          (pre.length : Int) ((pre.length + modeB.length : Nat) : Int) = modeB :=
    jsSlice_eq _ pre.length (pre.length + modeB.length) modeB _
      (by omega) hd0 rfl
  have hnull :
      jsIndexOfFrom (pre ++ modeB ++ [32] ++ nameB ++ [0] ++ sha20 ++ rest) 0
          (pre.length + modeB.length + 1) =
        ((pre.length + modeB.length + 1 + nameB.length : Nat) : Int) :=
    jsIndexOfFrom_eq _ 0 (pre.length + modeB.length + 1) nameB _ hd1 hn
  have hname :
      jsSlice (pre ++ modeB ++ [32] ++ nameB ++ [0] ++ sha20 ++ rest)
          ((pre.length + modeB.length + 1 : Nat) : Int)
          ((pre.length + modeB.length + 1 + nameB.length : Nat) : Int) = nameB :=
    jsSlice_eq _ (pre.length + modeB.length + 1)
      (pre.length + modeB.length + 1 + nameB.length) nameB _
      (by omega) hd1 rfl
  have hid :
      jsSlice (pre ++ modeB ++ [32] ++ nameB ++ [0] ++ sha20 ++ rest)
          ((pre.length + modeB.length + nameB.length + 2 : Nat) : Int)
          ((pre.length + modeB.length + nameB.length + 2 + 20 : Nat) : Int) = sha20 :=
    jsSlice_eq _ (pre.length + modeB.length + nameB.length + 2)
      (pre.length + modeB.length + nameB.length + 2 + 20) sha20 _
      (by omega) hd2 (by omega)
  have h1 : ((((pre.length + modeB.length : Nat) : Int)) + 1).toNat =
      pre.length + modeB.length + 1 := by omega
  have h2 : ((((pre.length + modeB.length + 1 + nameB.length : Nat) : Int)) + 1).toNat =
      pre.length + modeB.length + nameB.length + 2 := by omega
  have h3 : ((pre.length + modeB.length + nameB.length + 2 : Nat) : Int) + 20 =
      ((pre.length + modeB.length + nameB.length + 2 + 20 : Nat) : Int) := by omega
  have h4 : pre.length + modeB.length + nameB.length + 2 + 20 =
      pre.length + modeB.length + nameB.length + 22 := by omega
  conv =>
    lhs
    rw [parseTreeGo]
  rw [if_pos (by omega)]
  simp only [hspace, h1, hnull, h2, h3, hmode, hname, hid, h4]

/-- `stringToArray` distributes over string append. -/
theorem stringToArray_append (a b : String) :
    stringToArray (a ++ b) = stringToArray a ++ stringToArray b := by
  simp [stringToArray]

/-- `packShaChars` produces one byte per character pair. -/
theorem packShaChars_length :
    ∀ l : List Char, (packShaChars l).length = (l.length + 1) / 2
  | [] => rfl
  | [c] => by simp [packShaChars]
  | _ :: _ :: rest => by
    simp only [packShaChars, List.length_cons, packShaChars_length rest]
    omega

/-- A 40-hex id packs to 20 bytes. -/
theorem packSha_length {id : String} (h : isSha id = true) :
    (packSha id).length = 20 := by
  obtain ⟨hlen, _⟩ := isSha_elim h
  simp [packSha, packShaChars_length, hlen]

/-- `unpackSha` inverts `packSha` on 40-hex ids. -/
theorem unpackSha_packSha {id : String} (h : isSha id = true) :
    unpackSha (packSha id) = id := by
  obtain ⟨hlen, hhex⟩ := isSha_elim h
  obtain ⟨data⟩ := id
  have := unpackShaChars_packShaChars data hhex (by simp at hlen ⊢; omega)
  simp only [unpackSha, packSha]
  exact String.ext this

/-- A well-formed name has no NUL byte in its code-unit encoding. -/
theorem wf_name_no_nul {e : TreeItem}
    (h : ∀ c ∈ e.name.data, 0 < c.toNat ∧ c.toNat < 128) :
    0 ∉ stringToArray e.name := by
  intro hmem
  simp only [stringToArray, List.mem_map] at hmem
  obtain ⟨c, hc, hc0⟩ := hmem
  have := (h c hc).1
  omega

/-- The record a single entry contributes to the payload, split at its
separators. -/
theorem entryRecord_split (e : TreeItem) :
    entryRecord e =
      stringToArray (if e.type = "tree" then "040000" else "100644") ++ [32] ++
        stringToArray e.name ++ [0] ++ packSha e.id := by
  simp only [entryRecord, stringToArray_append]
  rfl

/-- The scan loop decodes a concatenation of well-formed entry records back
to the entries, whatever prefix precedes them and for any sufficient fuel. -/
theorem parseTreeGo_payload :
    ∀ (items : List TreeItem) (pre : List Nat) (fuel : Nat),
      (∀ e ∈ items, wfItem e) → items.length + 1 ≤ fuel →
      parseTreeGo (pre ++ (items.map entryRecord).flatten) fuel pre.length =
        some items
  | [], pre, fuel, _, hf => by
    obtain ⟨f, rfl⟩ : ∃ f, fuel = f + 1 := ⟨fuel - 1, by omega⟩
    simp only [List.map_nil, List.flatten_nil, List.append_nil]
    exact parseTreeGo_end pre f pre.length (le_refl _)
  | e :: es, pre, fuel, hwf, hf => by
    obtain ⟨f, rfl⟩ : ∃ f, fuel = f + 1 := ⟨fuel - 1, by omega⟩
    obtain ⟨hty, hnm, hid⟩ := hwf e (by simp)
    have hplen : (packSha e.id).length = 20 := packSha_length hid
    have hn0 : 0 ∉ stringToArray e.name := wf_name_no_nul hnm
    have hm32 : 32 ∉ stringToArray (if e.type = "tree" then "040000" else "100644") := by
      rcases hty with h | h <;> rw [h] <;> decide
    have hcontent :
        pre ++ ((e :: es).map entryRecord).flatten =
          pre ++ stringToArray (if e.type = "tree" then "040000" else "100644") ++
            [32] ++ stringToArray e.name ++ [0] ++ packSha e.id ++
            (es.map entryRecord).flatten := by
      conv =>
        lhs
        rw [List.map_cons, List.flatten_cons, entryRecord_split]
      simp [List.append_assoc]
    rw [hcontent,
      parseTreeGo_step pre _ _ _ _ f hm32 hn0 hplen]
    have hih := parseTreeGo_payload es (pre ++ entryRecord e) f
      (fun x hx => hwf x (by simp [hx])) (by simp at hf ⊢; omega)
    have hpos : (pre ++ entryRecord e).length =
        pre.length +
          (stringToArray (if e.type = "tree" then "040000" else "100644")).length +
          (stringToArray e.name).length + 22 := by
      rw [entryRecord_split]
      simp only [List.length_append, List.length_cons, List.length_nil, hplen]
      omega
    have hlist : (pre ++ entryRecord e) ++ (es.map entryRecord).flatten =
        pre ++ stringToArray (if e.type = "tree" then "040000" else "100644") ++
          [32] ++ stringToArray e.name ++ [0] ++ packSha e.id ++
          (es.map entryRecord).flatten := by
      rw [entryRecord_split]
      simp [List.append_assoc]
    rw [hlist, hpos] at hih
    rw [hih]
    have hts : arrayToString (stringToArray
        (if e.type = "tree" then "040000" else "100644")) =
        (if e.type = "tree" then "040000" else "100644") :=
      arrayToString_stringToArray _
    have htsn : arrayToString (stringToArray e.name) = e.name :=
      arrayToString_stringToArray _
    have hups : unpackSha (packSha e.id) = e.id := unpackSha_packSha hid
    simp only [Option.map_some, Option.some.injEq, hts, htsn, hups]
    have htype :
        (if jsStartsWith (if e.type = "tree" then "040000" else "100644") "100"
          then ("blob" : String)
          else if jsStartsWith (if e.type = "tree" then "040000" else "100644") "160"
          then "submodule" else "tree") = e.type := by
      rcases hty with h | h <;> rw [h] <;> decide
    rw [htype]
    rfl

/-- A payload has at least as many bytes as it has entry records. -/
theorem records_length_ge (items : List TreeItem) :
    items.length ≤ ((items.map entryRecord).flatten).length := by
  induction items with
  | nil => simp
  | cons e es ih =>
    have h1 : 1 ≤ (entryRecord e).length := by
      rw [entryRecord_split]
      simp only [List.length_append, List.length_cons, List.length_nil]
      omega
    simp only [List.map_cons, List.flatten_cons, List.length_append,
      List.length_cons]
    omega

/-- C4 as amended: decoding inverts encoding for every tree whose entries
have kind `blob` or `tree` (no submodule-link), NUL-free ASCII names and
40-hex ids, listed in the encoder's own sort order: `parseTree` applied to
the payload built by `writeTree` returns the entries back, entry for entry,
preserving name, kind and id. -/
theorem parseTree_writeTree_roundtrip (lc : String → String → Int)
    (items : List TreeItem) (hwf : ∀ e ∈ items, wfItem e)
    (hsort : sortJs lc items = items) :
    parseTree (writeTreePayload lc items) = some items := by
  unfold parseTree writeTreePayload
  rw [hsort]
  have hlen := records_length_ge items
  have := parseTreeGo_payload items [] (((items.map entryRecord).flatten).length + 1)
    hwf (by omega)
  simpa using this

/-- Witness for `parseTree_writeTree_roundtrip`: a two-entry tree (one blob,
one subtree) encodes and decodes back to itself. -/
theorem parseTree_writeTree_roundtrip_witness :
    (∀ e ∈ ([⟨"blob", "a.txt", String.mk (List.replicate 40 'a')⟩,
        ⟨"tree", "dir", String.mk (List.replicate 40 'b')⟩] : List TreeItem),
        wfItem e) ∧
      sortJs byteCompare
          [⟨"blob", "a.txt", String.mk (List.replicate 40 'a')⟩,
            ⟨"tree", "dir", String.mk (List.replicate 40 'b')⟩] =
        [⟨"blob", "a.txt", String.mk (List.replicate 40 'a')⟩,
          ⟨"tree", "dir", String.mk (List.replicate 40 'b')⟩] ∧
      parseTree (writeTreePayload byteCompare
          [⟨"blob", "a.txt", String.mk (List.replicate 40 'a')⟩,
            ⟨"tree", "dir", String.mk (List.replicate 40 'b')⟩]) =
        some [⟨"blob", "a.txt", String.mk (List.replicate 40 'a')⟩,
          ⟨"tree", "dir", String.mk (List.replicate 40 'b')⟩] :=
  ⟨by decide, by decide,
    parseTree_writeTree_roundtrip byteCompare _ (by decide) (by decide)⟩

/-- C4 counterexample: a tree consisting of one submodule-link entry does
not round-trip — `writeTree` writes mode `100644` for it (only `tree`
entries get `040000`; there is no `160000` branch), so decoding returns a
`blob` entry: the kind is not preserved. -/
theorem writeTree_submodule_not_roundtrip :
    parseTree (writeTreePayload byteCompare [itemSubm]) =
        some [⟨"blob", "m", String.mk (List.replicate 40 'a')⟩] ∧
      (⟨"blob", "m", String.mk (List.replicate 40 'a')⟩ : TreeItem) ≠ itemSubm := by
  constructor
  · decide
  · decide

/-- C7 counterexample: the decoder maps the unrecognized mode prefix
`120000` (a symbolic link in the reference format) to kind `tree` and
succeeds; it does not fail with a `FormatError` (indeed `parseTree` has no
failure outcome at all for such records). -/
theorem parseTree_symlink_mode_is_tree :
    parseTree (stringToArray "120000 x" ++ [0] ++ List.replicate 20 170) =
      some [⟨"tree", "x", String.mk (List.replicate 40 'a')⟩] := by
  decide

/-- C7 as amended: for every record `<mode> <name>\0<20-byte-id>`, decoding
always succeeds and assigns kind by exactly two recognized prefixes — a mode
starting `100` is a blob, a mode starting `160` is a submodule-link, and any
other mode string, recognized or not, is a tree; no mode makes decoding
fail. -/
theorem parseTree_mode_spec (modeB nameB sha20 : List Nat)
    (hm : 32 ∉ modeB) (hn : 0 ∉ nameB) (hs : sha20.length = 20) :
    parseTree (modeB ++ [32] ++ nameB ++ [0] ++ sha20) =
      some [⟨if jsStartsWith (arrayToString modeB) "100" then "blob"
             else if jsStartsWith (arrayToString modeB) "160" then "submodule"
             else "tree", arrayToString nameB, unpackSha sha20⟩] := by
  have hclen : (modeB ++ [32] ++ nameB ++ [0] ++ sha20).length =
      modeB.length + nameB.length + 22 := by
    simp only [List.length_append, List.length_cons, List.length_nil, hs]
    omega
  unfold parseTree
  rw [hclen]
  have hstep := parseTreeGo_step [] modeB nameB sha20 []
    (modeB.length + nameB.length + 22) hm hn hs
  simp only [List.nil_append, List.append_nil, List.length_nil] at hstep
  rw [hstep]
  have hend := parseTreeGo_end (modeB ++ [32] ++ nameB ++ [0] ++ sha20)
    (modeB.length + nameB.length + 21) (0 + modeB.length + nameB.length + 22)
    (by omega)
  rw [show modeB.length + nameB.length + 22 =
      modeB.length + nameB.length + 21 + 1 from by omega, hend]
  rfl

/-- Witness for `parseTree_mode_spec`: the executable-file mode `100755`
begins with the regular-file prefix `100`, so the entry decodes as a blob. -/
theorem parseTree_mode_spec_witness :
    (32 ∉ stringToArray "100755") ∧ (0 ∉ stringToArray "y") ∧
      (List.replicate 20 187).length = 20 ∧
      parseTree (stringToArray "100755" ++ [32] ++ stringToArray "y" ++ [0] ++
          List.replicate 20 187) =
        some [⟨if jsStartsWith (arrayToString (stringToArray "100755")) "100"
               then "blob"
               else if jsStartsWith (arrayToString (stringToArray "100755")) "160"
               then "submodule" else "tree",
            arrayToString (stringToArray "y"),
            unpackSha (List.replicate 20 187)⟩] :=
  ⟨by decide, by decide, by decide,
    parseTree_mode_spec (stringToArray "100755") (stringToArray "y")
      (List.replicate 20 187) (by decide) (by decide) (by decide)⟩

/-! ### Sorting -/

/-- Characters with equal code points are equal. -/
theorem char_eq_of_toNat_eq {a b : Char} (h : a.toNat = b.toNat) : a = b := by
  rw [← Char.ofNat_toNat a, h, Char.ofNat_toNat]

/-- `charListCompare` is total (as a `≤ 0` relation). -/
theorem charListCompare_le_total :
    ∀ x y : List Char, charListCompare x y ≤ 0 ∨ charListCompare y x ≤ 0
  | [], [] => Or.inl (by simp [charListCompare])
  | [], _ :: _ => Or.inl (by simp [charListCompare])
  | _ :: _, [] => Or.inr (by simp [charListCompare])
  | a :: as, b :: bs => by
    unfold charListCompare
    rcases Nat.lt_trichotomy a.toNat b.toNat with h | h | h
    · left
      rw [if_pos h]
      decide
    · have hab : a = b := char_eq_of_toNat_eq h
      subst hab
      simp only [if_neg (lt_irrefl a.toNat)]
      exact charListCompare_le_total as bs
    · right
      rw [if_pos h]
      decide

/-- `charListCompare` is transitive (as a `≤ 0` relation). -/
theorem charListCompare_le_trans :
    ∀ x y z : List Char, charListCompare x y ≤ 0 → charListCompare y z ≤ 0 →
      charListCompare x z ≤ 0
  | [], y, z, _, _ => by
    cases z <;> simp [charListCompare]
  | _ :: _, [], _, hxy, _ => by
    simp [charListCompare] at hxy
  | _ :: _, _ :: _, [], _, hyz => by
    simp [charListCompare] at hyz
  | a :: as, b :: bs, c :: cs, hxy, hyz => by
    unfold charListCompare at hxy hyz ⊢
    split_ifs at hxy hyz ⊢ <;>
      first
        | omega
        | exact charListCompare_le_trans as bs cs hxy hyz

/-- `charListCompare` is antisymmetric (as a `≤ 0` relation). -/
theorem charListCompare_le_antisymm :
    ∀ x y : List Char, charListCompare x y ≤ 0 → charListCompare y x ≤ 0 →
      x = y
  | [], [], _, _ => rfl
  | [], _ :: _, _, hyx => by simp [charListCompare] at hyx
  | _ :: _, [], hxy, _ => by simp [charListCompare] at hxy
  | a :: as, b :: bs, hxy, hyx => by
    unfold charListCompare at hxy hyx
    split_ifs at hxy hyx with h1 h2 <;> try omega
    have hab : a = b := char_eq_of_toNat_eq (by omega)
    rw [hab, charListCompare_le_antisymm as bs hxy hyx]

/-- `byteCompare` is total. -/
theorem byteCompare_le_total (x y : String) :
    byteCompare x y ≤ 0 ∨ byteCompare y x ≤ 0 :=
  charListCompare_le_total x.data y.data

/-- `byteCompare` is transitive. -/
theorem byteCompare_le_trans (x y z : String) (h1 : byteCompare x y ≤ 0)
    (h2 : byteCompare y z ≤ 0) : byteCompare x z ≤ 0 :=
  charListCompare_le_trans x.data y.data z.data h1 h2

/-- `byteCompare` is antisymmetric. -/
theorem byteCompare_le_antisymm (x y : String) (h1 : byteCompare x y ≤ 0)
    (h2 : byteCompare y x ≤ 0) : x = y :=
  String.ext (charListCompare_le_antisymm x.data y.data h1 h2)

/-- Two sorted permutations of each other are equal, provided the order is
antisymmetric on the members of the first list. -/
theorem eq_of_perm_of_sorted_antisymmOn {α : Type} {r : α → α → Prop} :
    ∀ {l₁ l₂ : List α}, l₁.Perm l₂ →
      (∀ a ∈ l₁, ∀ b ∈ l₁, r a b → r b a → a = b) →
      l₁.Sorted r → l₂.Sorted r → l₁ = l₂
  | [], _, hp, _, _, _ => (hp.symm.eq_nil).symm
  | _ :: _, [], hp, _, _, _ => absurd hp.eq_nil (List.cons_ne_nil _ _)
  | a :: t₁, b :: t₂, hp, hanti, hs₁, hs₂ => by
    have hab : a = b := by
      by_cases h : a = b
      · exact h
      · have ha2 : a ∈ b :: t₂ := hp.subset (by simp)
        have hb1 : b ∈ a :: t₁ := hp.symm.subset (by simp)
        have hra : r b a := by
          rcases List.mem_cons.mp ha2 with h' | h'
          · exact absurd h' h
          · exact List.rel_of_sorted_cons hs₂ a h'
        have hrb : r a b := by
          rcases List.mem_cons.mp hb1 with h' | h'
          · exact absurd h'.symm h
          · exact List.rel_of_sorted_cons hs₁ b h'
        exact hanti a (by simp) b hb1 hrb hra
    subst hab
    have hpt : t₁.Perm t₂ := hp.cons_inv
    have htail := eq_of_perm_of_sorted_antisymmOn hpt
      (fun x hx y hy => hanti x (by simp [hx]) y (by simp [hy]))
      hs₁.of_cons hs₂.of_cons
    rw [htail]

/-- C3 as amended: `writeTree` sorts the entries by the host collator
applied to the slash-adjusted name (the name, with a trailing `/` appended
to `tree`-kind entries).  Whenever the collator is a total, transitive and
antisymmetric comparison of the keys and the entries' slash-adjusted names
are pairwise distinct, encoding the same set of entries in any input order
yields identical payload bytes and an identical object id, and the emitted
records are sorted by the collator on the slash-adjusted names.  (Byte-wise
ordering itself is *not* guaranteed — see the counterexample — unless the
host collator happens to be the byte-wise one.) -/
theorem writeTree_sort_spec (lc : String → String → Int)
    (hTotal : ∀ x y : String, lc x y ≤ 0 ∨ lc y x ≤ 0)
    (hTrans : ∀ x y z : String, lc x y ≤ 0 → lc y z ≤ 0 → lc x z ≤ 0)
    (hAnti : ∀ x y : String, lc x y ≤ 0 → lc y x ≤ 0 → x = y)
    (items1 items2 : List TreeItem) (hperm : items1.Perm items2)
    (hnd : (items1.map slashedName).Nodup) :
    writeTreePayload lc items1 = writeTreePayload lc items2 ∧
      (writeTree emptyStore lc items1).1 = (writeTree emptyStore lc items2).1 ∧
      List.Sorted (sortRel lc) (sortJs lc items1) := by
  haveI : IsTotal TreeItem (sortRel lc) := ⟨fun a b => hTotal _ _⟩
  haveI : IsTrans TreeItem (sortRel lc) := ⟨fun a b c => hTrans _ _ _⟩
  have hs1 : List.Sorted (sortRel lc) (sortJs lc items1) :=
    List.sorted_insertionSort _ _
  have hs2 : List.Sorted (sortRel lc) (sortJs lc items2) :=
    List.sorted_insertionSort _ _
  have hp : (sortJs lc items1).Perm (sortJs lc items2) :=
    (List.perm_insertionSort _ _).trans (hperm.trans (List.perm_insertionSort _ _).symm)
  have hnd' : ((sortJs lc items1).map slashedName).Nodup := by
    have hmp : ((sortJs lc items1).map slashedName).Perm (items1.map slashedName) :=
      (List.perm_insertionSort _ _).map _
    exact (hmp.nodup_iff).mpr hnd
  have heq : sortJs lc items1 = sortJs lc items2 := by
    refine eq_of_perm_of_sorted_antisymmOn hp ?_ hs1 hs2
    intro a ha b hb hab hba
    exact List.inj_on_of_nodup_map hnd' ha hb (hAnti _ _ hab hba)
  refine ⟨?_, ?_, hs1⟩
  · simp [writeTreePayload, heq]
  · simp [writeTree, writeObject, writeTreePayload, heq]

/-- Witness for `writeTree_sort_spec`: the byte-wise collator and two
distinct-keyed entries given in the two possible input orders. -/
theorem writeTree_sort_spec_witness :
    (([itemAa, itemFooTree] : List TreeItem).Perm [itemFooTree, itemAa]) ∧
      (([itemAa, itemFooTree].map slashedName).Nodup) ∧
      writeTreePayload byteCompare [itemAa, itemFooTree] =
        writeTreePayload byteCompare [itemFooTree, itemAa] ∧
      (writeTree emptyStore byteCompare [itemAa, itemFooTree]).1 =
        (writeTree emptyStore byteCompare [itemFooTree, itemAa]).1 ∧
      List.Sorted (sortRel byteCompare) (sortJs byteCompare [itemAa, itemFooTree]) :=
  ⟨List.Perm.swap _ _ _, by decide,
    writeTree_sort_spec byteCompare byteCompare_le_total byteCompare_le_trans
      byteCompare_le_antisymm [itemAa, itemFooTree] [itemFooTree, itemAa]
      (List.Perm.swap _ _ _) (by decide)⟩

/-- C3 counterexample.  First conjunct: under a conforming host collator
that, like the ICU root collation, orders `a` before `B` (`icuLike`),
`writeTree` emits the entries in the order `a`, `B`, which is not byte-wise
order of the slash-adjusted names (byte-wise, `B` precedes `a`).  Second
conjunct: even under the byte-wise collator itself, the two input orders of
the same two distinct entries `{blob "foo/"}` and `{tree "foo"}` — whose
slash-adjusted keys collide — produce different payload bytes, because the
ECMAScript sort is stable, so encoding is not input-order independent. -/
theorem writeTree_order_counterexample :
    (sortJs icuLike [itemBb, itemAa] = [itemAa, itemBb] ∧
        byteCompare (slashedName itemAa) (slashedName itemBb) > 0) ∧
      (([itemFooSlash, itemFooTree] : List TreeItem).Perm
          [itemFooTree, itemFooSlash] ∧
        itemFooSlash ≠ itemFooTree ∧
        writeTreePayload byteCompare [itemFooSlash, itemFooTree] ≠
          writeTreePayload byteCompare [itemFooTree, itemFooSlash]) := by
  refine ⟨⟨by decide, by decide⟩, List.Perm.swap _ _ _, by decide, by decide⟩

/-! ### The object store and the tree navigator: proofs -/

/-- Decimal digit characters produced by `Nat.digitChar` below 10. -/
theorem digitChar_digit :
    ∀ k, k < 10 → 48 ≤ (Nat.digitChar k).toNat ∧ (Nat.digitChar k).toNat ≤ 57 := by
  decide

/-- All characters `Nat.toDigitsCore` emits in base 10 are decimal digits. -/
theorem toDigitsCore_digits :
    ∀ (fuel n : Nat) (ds : List Char),
      (∀ c ∈ ds, 48 ≤ c.toNat ∧ c.toNat ≤ 57) →
      ∀ c ∈ Nat.toDigitsCore 10 fuel n ds, 48 ≤ c.toNat ∧ c.toNat ≤ 57
  | 0, _, _, hds => hds
  | fuel + 1, n, ds, hds => by
    unfold Nat.toDigitsCore
    have hd : ∀ c ∈ (Nat.digitChar (n % 10) :: ds),
        48 ≤ c.toNat ∧ c.toNat ≤ 57 := by
      intro c hc
      rcases List.mem_cons.mp hc with rfl | hc
      · exact digitChar_digit _ (Nat.mod_lt _ (by omega))
      · exact hds c hc
    by_cases h0 : n / 10 = 0
    · simpa [h0] using hd
    · simpa [h0] using toDigitsCore_digits fuel (n / 10) _ hd

/-- The decimal rendering of a natural number consists of digit characters. -/
theorem repr_digits (n : Nat) :
    ∀ c ∈ (toString n).data, 48 ≤ c.toNat ∧ c.toNat ≤ 57 := by
  show ∀ c ∈ (Nat.repr n).data, _
  unfold Nat.repr Nat.toDigits
  simp only [List.asString]
  exact toDigitsCore_digits (n + 1) n [] (by simp)

/-- The envelope splits as `typeBytes ++ [32] ++ lenBytes ++ [0] ++ payload`. -/
theorem objBytes_split (type : String) (payload : List Nat) :
    objBytes type payload =
      stringToArray type ++ [32] ++ stringToArray (toString payload.length) ++
        [0] ++ payload := by
  simp only [objBytes, stringToArray_append]
  rfl

/-- `jsSliceFrom` with an in-range natural start index is a drop. -/
theorem jsSliceFrom_nat (l : List Nat) (s : Nat) (h : s ≤ l.length) :
    jsSliceFrom l (s : Int) = l.drop s := by
  unfold jsSliceFrom
  rw [jsSlice_nat l s l.length h (le_refl _)]
  have : (l.drop s).length = l.length - s := List.length_drop s l
  rw [← this, List.take_length]

/-- Reading a well-formed stored envelope back:
`readUnpackedObject` recovers the type, the payload and the id. -/
theorem readUnpackedObject_ok (store : Store) (id type : String)
    (payload : List Nat)
    (ht32 : 32 ∉ stringToArray type) (ht0 : 0 ∉ stringToArray type)
    (h : store (objPath id) = some (objBytes type payload)) :
    readUnpackedObject store id = Except.ok ⟨type, payload, id⟩ := by
  have hsplit := objBytes_split type payload
  set typeB := stringToArray type with htB
  set lenB := stringToArray (toString payload.length) with hlB
  have hlen0 : 0 ∉ lenB := by
    rw [hlB]
    intro hmem
    simp only [stringToArray, List.mem_map] at hmem
    obtain ⟨c, hc, hc0⟩ := hmem
    have := repr_digits payload.length c hc
    omega
  have hshape : objBytes type payload = typeB ++ 32 :: (lenB ++ 0 :: payload) := by
    rw [hsplit]
    simp [List.append_assoc]
  have hspace : jsIndexOfFrom (objBytes type payload) 32 0 =
      ((0 + typeB.length : Nat) : Int) := by
    apply jsIndexOfFrom_eq _ 32 0 typeB (lenB ++ 0 :: payload)
    · rw [List.drop_zero, hshape]
    · exact ht32
  have hnull : jsIndexOfFrom (objBytes type payload) 0 0 =
      ((0 + (typeB ++ [32] ++ lenB).length : Nat) : Int) := by
    apply jsIndexOfFrom_eq _ 0 0 (typeB ++ [32] ++ lenB) payload
    · rw [List.drop_zero, hshape]
      simp [List.append_assoc]
    · intro hmem
      rcases List.mem_append.mp hmem with hmem' | hmem'
      · rcases List.mem_append.mp hmem' with hmem'' | hmem''
        · exact ht0 hmem''
        · simp at hmem''
      · exact hlen0 hmem'
  have htype : jsSlice (objBytes type payload) (0 : Int)
      (((0 + typeB.length : Nat) : Int)) = typeB := by
    have := jsSlice_eq (objBytes type payload) 0 (0 + typeB.length) typeB
      (32 :: (lenB ++ 0 :: payload)) (by omega) (by rw [List.drop_zero, hshape])
      (by omega)
    simpa using this
  have hcont : jsSliceFrom (objBytes type payload)
      ((((0 + (typeB ++ [32] ++ lenB).length : Nat) : Int)) + 1) = payload := by
    have hlenB : (typeB ++ [32] ++ lenB).length = typeB.length + lenB.length + 1 := by
      simp only [List.length_append, List.length_cons, List.length_nil]
      omega
    have hcast : ((((0 + (typeB ++ [32] ++ lenB).length : Nat) : Int)) + 1) =
        ((typeB.length + lenB.length + 2 : Nat) : Int) := by
      rw [hlenB]; omega
    rw [hcast]
    have hdl : (objBytes type payload).length = typeB.length + lenB.length + 2 + payload.length := by
      rw [hshape]
      simp [List.length_append]
      omega
    rw [jsSliceFrom_nat _ _ (by omega)]
    have : objBytes type payload =
        (typeB ++ 32 :: (lenB ++ [0])) ++ payload := by
      rw [hshape]
      simp [List.append_assoc]
    rw [this, List.drop_left' (by simp [List.length_append]; omega)]
  unfold readUnpackedObject
  rw [h]
  show Except.ok (⟨arrayToString (jsSlice (inflate (objBytes type payload)) 0
      (jsIndexOfFrom (inflate (objBytes type payload)) 32 0)),
    jsSliceFrom (inflate (objBytes type payload))
      ((jsIndexOfFrom (inflate (objBytes type payload)) 0 0) + 1), id⟩ : RawObject) = _
  show Except.ok (⟨arrayToString (jsSlice (objBytes type payload) 0
      (jsIndexOfFrom (objBytes type payload) 32 0)),
    jsSliceFrom (objBytes type payload)
      ((jsIndexOfFrom (objBytes type payload) 0 0) + 1), id⟩ : RawObject) = _
  rw [hspace, hnull, htype, hcont, htB, arrayToString_stringToArray]

/-- `readObject` on a well-formed stored envelope. -/
theorem readObject_ok (store : Store) (id type : String) (payload : List Nat)
    (ht32 : 32 ∉ stringToArray type) (ht0 : 0 ∉ stringToArray type)
    (h : store (objPath id) = some (objBytes type payload)) :
    readObject store id = Except.ok ⟨type, payload, id⟩ := by
  unfold readObject
  rw [readUnpackedObject_ok store id type payload ht32 ht0 h]

/-- Whatever `readUnknownObject` successfully returns carries the id it was
asked for. -/
theorem readUnknownObjectO_id (store : Store) (id : String) (obj : GitObject)
    (h : readUnknownObjectO store id = some (Except.ok obj)) : obj.id = id := by
  unfold readUnknownObjectO at h
  match hro : readObject store id with
  | Except.error e =>
    rw [hro] at h
    simp at h
  | Except.ok raw =>
    have hid : raw.id = id := by
      unfold readObject readUnpackedObject at hro
      match hs : store (objPath id) with
      | none =>
        rw [hs] at hro
        simp at hro
      | some c =>
        rw [hs] at hro
        simp at hro
        rw [← hro]
    rw [hro] at h
    simp only at h
    split_ifs at h with h1 h2 h3 h4
    · simp at h
      rw [← h]
      exact hid
    · rcases hps : parseTree raw.content with _ | items <;> rw [hps] at h
      · simp at h
      · simp at h
        rw [← h]
        exact hid
    · simp at h
      rw [← h]
      exact hid
    · simp at h
      rw [← h]
      exact hid
    · simp at h
      rw [← h]
      exact hid

/-- `readUnknownObject` on a stored tree object decodes its entry list. -/
theorem readUnknownObjectO_tree (store : Store) (root : String)
    (payload : List Nat) (items : List TreeItem)
    (hst : store (objPath root) = some (objBytes "tree" payload))
    (hp : parseTree payload = some items) :
    readUnknownObjectO store root =
      some (Except.ok ⟨"tree", ObjContent.items items, root⟩) := by
  unfold readUnknownObjectO
  rw [readObject_ok store root "tree" payload (by decide) (by decide) hst]
  simp [hp]

/-- `readUnknownObject` on a stored blob object returns its raw bytes. -/
theorem readUnknownObjectO_blob (store : Store) (id : String)
    (payload : List Nat)
    (hst : store (objPath id) = some (objBytes "blob" payload)) :
    readUnknownObjectO store id =
      some (Except.ok ⟨"blob", ObjContent.bytes payload, id⟩) := by
  unfold readUnknownObjectO
  rw [readObject_ok store id "blob" payload (by decide) (by decide) hst]
  simp

/-- C6: the tree navigator.  Path strings are split on `/` with empty
segments dropped; an empty segment list returns the root object itself
(whatever its kind), and a successfully returned object always carries the
id it was looked up by; walking into a non-tree object fails with the
`is not a tree` error; a missing name in the decoded entry list fails with
the `has no object named` error; and a found entry makes the walk recurse
on exactly that entry's stored id with the remaining segments. -/
theorem readTreeItem_spec (store : Store) (root seg : String)
    (rest : List String) (payload : List Nat) (items : List TreeItem)
    (hst : store (objPath root) = some (objBytes "tree" payload))
    (hp : parseTree payload = some items) :
    (∀ path : String, readTreeItem store root path =
        readTreeItemSegs store
          ((jsSplit path '/').filter (fun part => decide (0 < part.length))) root) ∧
      (readTreeItemSegs store [] root = readUnknownObjectO store root) ∧
      (∀ obj, readUnknownObjectO store root = some (Except.ok obj) →
          obj.id = root) ∧
      (∀ id bpayload, store (objPath id) = some (objBytes "blob" bpayload) →
          readTreeItemSegs store (seg :: rest) id =
            some (Except.error (id ++ " is not a tree"))) ∧
      (items.find? (fun it => it.name == seg) = none →
          readTreeItemSegs store (seg :: rest) root =
            some (Except.error ("Tree " ++ root ++ " has no object named " ++ seg))) ∧
      (∀ it, items.find? (fun it => it.name == seg) = some it →
          readTreeItemSegs store (seg :: rest) root =
            readTreeItemSegs store rest it.id) := by
  refine ⟨fun _ => rfl, rfl, fun obj h => readUnknownObjectO_id store root obj h,
    ?_, ?_, ?_⟩
  · intro id bpayload hb
    rw [readTreeItemSegs, readUnknownObjectO_blob store id bpayload hb]
    simp
  · intro hfind
    rw [readTreeItemSegs, readUnknownObjectO_tree store root payload items hst hp]
    simp [ObjContent.itemList, hfind]
  · intro it hfind
    rw [readTreeItemSegs, readUnknownObjectO_tree store root payload items hst hp]
    simp [ObjContent.itemList, hfind]

/-- Witness for `readTreeItem_spec`: the concrete two-object store, with
the walk started at the tree `aaa...a` and the segment `f`. -/
theorem readTreeItem_spec_witness :
    navStore (objPath (String.mk (List.replicate 40 'a'))) =
        some (objBytes "tree"
          (entryRecord ⟨"blob", "f", String.mk (List.replicate 40 'b')⟩)) ∧
      parseTree (entryRecord ⟨"blob", "f", String.mk (List.replicate 40 'b')⟩) =
        some [⟨"blob", "f", String.mk (List.replicate 40 'b')⟩] ∧
      ((∀ path : String,
          readTreeItem navStore (String.mk (List.replicate 40 'a')) path =
            readTreeItemSegs navStore
              ((jsSplit path '/').filter (fun part => decide (0 < part.length)))
              (String.mk (List.replicate 40 'a'))) ∧
        (readTreeItemSegs navStore [] (String.mk (List.replicate 40 'a')) =
          readUnknownObjectO navStore (String.mk (List.replicate 40 'a'))) ∧
        (∀ obj, readUnknownObjectO navStore (String.mk (List.replicate 40 'a')) =
            some (Except.ok obj) → obj.id = String.mk (List.replicate 40 'a')) ∧
        (∀ id bpayload, navStore (objPath id) = some (objBytes "blob" bpayload) →
            readTreeItemSegs navStore ["f"] id =
              some (Except.error (id ++ " is not a tree"))) ∧
        (List.find? (fun it => it.name == "f")
              [(⟨"blob", "f", String.mk (List.replicate 40 'b')⟩ : TreeItem)] = none →
            readTreeItemSegs navStore ["f"] (String.mk (List.replicate 40 'a')) =
              some (Except.error ("Tree " ++ String.mk (List.replicate 40 'a') ++
                " has no object named " ++ "f"))) ∧
        (∀ it, List.find? (fun it => it.name == "f")
              [(⟨"blob", "f", String.mk (List.replicate 40 'b')⟩ : TreeItem)] =
              some it →
            readTreeItemSegs navStore ["f"] (String.mk (List.replicate 40 'a')) =
              readTreeItemSegs navStore [] it.id)) :=
  ⟨by decide, by decide,
    readTreeItem_spec navStore (String.mk (List.replicate 40 'a')) "f" []
      (entryRecord ⟨"blob", "f", String.mk (List.replicate 40 'b')⟩)
      [⟨"blob", "f", String.mk (List.replicate 40 'b')⟩]
      (by decide) (by decide)⟩

end GitModel
